import Mathlib

/-!
Verification of the gaia-project-scraper log-parsing and statistics engine.

The Python source is shallowly embedded: Python strings become lists of
characters, fallible code (exceptions, `sys.exit`) returns `Except`, and the
mutable statistics objects become explicit state passing.
-/

deriving instance DecidableEq for Except

/-- Python strings are modelled as lists of characters. -/
abbrev PyStr := List Char

/-- Python substring test `needle in hay` (contiguous occurrence). -/
def pyContains (needle : PyStr) : PyStr → Bool
  | [] => needle.isEmpty
  | c :: rest => needle.isPrefixOf (c :: rest) || pyContains needle rest

/-- Python `str.strip()`: remove leading and trailing whitespace. -/
def pstrip (s : PyStr) : PyStr :=
  ((s.dropWhile Char.isWhitespace).reverse.dropWhile Char.isWhitespace).reverse

/-- The runtime failures of the scraper, one constructor per Python exit path. -/
inductive PErr where
  /-- `ValueError` from `StateChange.__init__` on an empty token. -/
  | emptyToken
  /-- `sys.exit(1)` from `StateChange.__init__` when no digit run exists. -/
  | malformedToken
  /-- `ValueError` from `LogItem.parse_from_HTML` on a row with no cells. -/
  | malformedRow
  /-- `AttributeError` from accessing `.resource` on `None` or on a
  `StateChange` whose resource attribute was never set. -/
  | attributeError
  /-- `KeyError` from a dict lookup with a missing key. -/
  | keyError
  /-- `ZeroDivisionError` from the percentage breakdown. -/
  | zeroDivision
deriving DecidableEq, Repr

/-- `class Res(Enum)` — the resource kinds. -/
inductive Res where
  | COIN
  | ORE
  | KNOWLEDGE
  | QIC
  | POWER
  | PT
  | VP
deriving DecidableEq, Repr

/-- `class ChangeType(Enum)`. -/
inductive ChangeType where
  | GAIN
  | LOSS
deriving DecidableEq, Repr

/-- `StateChange._RESOURCE_MAP`, in declared (insertion) iteration order. -/
def RESOURCE_MAP : List (PyStr × Res) :=
  [(['c'], Res.COIN),
   (['o'], Res.ORE),
   (['k'], Res.KNOWLEDGE),
   (['q'], Res.QIC),
   (['p', 'w'], Res.POWER),
   (['t'], Res.PT),
   (['v', 'p'], Res.VP)]

/-- `_FACTIONS`. -/
def FACTIONS : List PyStr :=
  ["ambas".toList, "baltaks".toList, "bescods".toList, "firaks".toList,
   "geodens".toList, "gleens".toList, "hadsch-hallas".toList, "itars".toList,
   "ivits".toList, "lantids".toList, "nevlas".toList, "taklons".toList,
   "terrans".toList, "xenos".toList]

/-- `_TECH_TRACKS`. -/
def TECH_TRACKS : List PyStr :=
  ["terra".toList, "nav".toList, "int".toList, "gaia".toList,
   "eco".toList, "sci".toList]

/-- The action-label vocabulary used by the classification rules. -/
def roundStr : PyStr := "round".toList

def boosterStr : PyStr := "booster".toList

def finalStr : PyStr := "final".toList

def techStr : PyStr := "tech".toList

def advStr : PyStr := "adv".toList

def federationStr : PyStr := "federation".toList

def qicStr : PyStr := "qic".toList

def spendStr : PyStr := "spend".toList

def chargeStr : PyStr := "charge".toList

/-- A parsed state change.  `resource` is `none` when no vocabulary suffix
matched, modelling the Python object whose `resource` attribute is unset. -/
structure StateChange where
  type : ChangeType
  resource : Option Res
  quantity : Nat
deriving DecidableEq, Repr

/-- Value of a digit string under Python `int()`. -/
def digitsVal (l : List Char) : Nat :=
  l.foldl (fun a c => a * 10 + (c.toNat - 48)) 0

/-- `re.findall` with pattern digit-run, first match, as an integer:
the value of the first maximal run of decimal digits, if any. -/
def firstDigitRun : PyStr → Option Nat
  | [] => none
  | c :: rest =>
    if c.isDigit then some (digitsVal (c :: rest.takeWhile Char.isDigit))
    else firstDigitRun rest

/-- `StateChange.__init__`. -/
def parseStateChange : PyStr → Except PErr StateChange
  | [] => .error .emptyToken
  | c :: cs =>
    let ty := if c = '-' then ChangeType.LOSS else ChangeType.GAIN
    let res := (RESOURCE_MAP.find? fun p => p.1.isSuffixOf (c :: cs)).map Prod.snd
    match firstDigitRun (c :: cs) with
    | none => .error .malformedToken
    | some q => .ok ⟨ty, res, q⟩

/-- The combined statistics record for one faction (`FactionStats`, flattening
its `VPStats` and `ResourceStats` bases). -/
structure FactionStats where
  faction : PyStr
  vp : Int
  vp_lost_from_leech : Int
  vp_from_round_scoring : Nat
  vp_from_boosters : Nat
  vp_from_endgame : Nat
  vp_from_techs : Nat
  vp_from_adv_techs : Nat
  vp_from_feds : Nat
  vp_from_qic_act : Nat
  vp_from_tracks : Nat
  vp_from_resources : Nat
  leech : Nat
  power : Nat
  coins : Nat
  ore : Nat
  knowledge : Nat
  qic : Nat
  pt : Nat
deriving DecidableEq, Repr

/-- `FactionStats.__init__`: victory points seeded at 10, all counters at 0. -/
def FactionStats.init (f : PyStr) : FactionStats :=
  ⟨f, 10, 0, 0, 0, 0, 0, 0, 0, 0, 0, 0, 0, 0, 0, 0, 0, 0, 0⟩

/-- The bucket-classification ladder of `VPStats.update_vp` (the elif chain,
in source order, first match wins). -/
def classifyVP (action : PyStr) (s : FactionStats) (q : Nat) : FactionStats :=
  if pyContains roundStr action then
    { s with vp_from_round_scoring := s.vp_from_round_scoring + q }
  else if pyContains boosterStr action then
    { s with vp_from_boosters := s.vp_from_boosters + q }
  else if pyContains finalStr action then
    { s with vp_from_endgame := s.vp_from_endgame + q }
  else if pyContains techStr action then
    { s with vp_from_techs := s.vp_from_techs + q }
  else if pyContains advStr action then
    { s with vp_from_adv_techs := s.vp_from_adv_techs + q }
  else if action = federationStr then
    { s with vp_from_feds := s.vp_from_feds + q }
  else if pyContains qicStr action then
    { s with vp_from_qic_act := s.vp_from_qic_act + q }
  else if action ∈ TECH_TRACKS then
    { s with vp_from_tracks := s.vp_from_tracks + q }
  else if action = spendStr then
    { s with vp_from_resources := s.vp_from_resources + q }
  else if action = chargeStr then
    { s with vp_lost_from_leech := s.vp_lost_from_leech - q }
  else s

/-- `VPStats.update_vp`.  Accessing `change.resource` on an object whose
resource attribute was never set raises `AttributeError`.  After the bucket
ladder, the running total is adjusted by the raw signed delta. -/
def update_vp (action : PyStr) (s : FactionStats) (ch : StateChange) :
    Except PErr FactionStats :=
  match ch.resource with
  | none => .error .attributeError
  | some r =>
    if r ≠ Res.VP then .ok s
    else
      let s1 := classifyVP action s ch.quantity
      match ch.type with
      | ChangeType.GAIN => .ok { s1 with vp := s1.vp + ch.quantity }
      | ChangeType.LOSS => .ok { s1 with vp := s1.vp - ch.quantity }

/-- `ResourceStats.update_resources`.  A VP-resource change reaches the
`_RESOURCE_TO_FIELD_MAP` lookup with a key that is not in the map. -/
def update_resources (action : PyStr) (s : FactionStats) (ch : StateChange) :
    Except PErr FactionStats :=
  if ch.type = ChangeType.LOSS then .ok s
  else
    let q := ch.quantity
    let s1 := if action = chargeStr then { s with leech := s.leech + q } else s
    match ch.resource with
    | none => .error .attributeError
    | some Res.POWER => .ok { s1 with power := s1.power + q }
    | some Res.COIN => .ok { s1 with coins := s1.coins + q }
    | some Res.ORE => .ok { s1 with ore := s1.ore + q }
    | some Res.KNOWLEDGE => .ok { s1 with knowledge := s1.knowledge + q }
    | some Res.QIC => .ok { s1 with qic := s1.qic + q }
    | some Res.PT => .ok { s1 with pt := s1.pt + q }
    | some Res.VP => .error .keyError

/-- An event: an action label paired with its delta list, in which `none`
marks a token position holding no recognizable change (Python `None`). -/
abbrev Event := PyStr × List (Option StateChange)

/-- Left fold through `Except`, mirroring a Python loop whose body may raise. -/
def listFoldE {σ α : Type} (f : σ → α → Except PErr σ) : σ → List α → Except PErr σ
  | s, [] => .ok s
  | s, x :: xs =>
    match f s x with
    | .error e => .error e
    | .ok s2 => listFoldE f s2 xs

/-- The body of `FactionStats.augment`'s loop: dispatch one delta.  The
condition `change.resource == Res.VP` accesses `.resource`, which raises
`AttributeError` on `None` and on an unresolved resource. -/
def augmentChange (action : PyStr) (s : FactionStats) (ch? : Option StateChange) :
    Except PErr FactionStats :=
  match ch? with
  | none => .error .attributeError
  | some ch =>
    match ch.resource with
    | none => .error .attributeError
    | some r =>
      if r = Res.VP then update_vp action s ch
      else update_resources action s ch

/-- `FactionStats.augment`. -/
def augment (s : FactionStats) (e : Event) : Except PErr FactionStats :=
  listFoldE (augmentChange e.1) s e.2

/-- A parsed log row (`LogItem`). -/
structure LogItem where
  text : PyStr
  faction : Option PyStr
  events : Option (List Event)
deriving DecidableEq, Repr

/-- One `<td>` cell: its own string plus the strings of its `<div>` sub-items. -/
structure Cell where
  str : PyStr
  divs : List PyStr
deriving DecidableEq, Repr

/-- One raw `<tr>` row, as the excluded HTML layer supplies it. -/
structure RawRow where
  cells : List Cell
deriving DecidableEq, Repr

/-- `LogItem._get_faction`: first faction name occurring in the text. -/
def get_faction (text : PyStr) : Option PyStr :=
  FACTIONS.find? fun f => pyContains f text

/-- List map through `Except`, mirroring a Python comprehension whose body
may raise: elements are processed left to right, the first failure aborts. -/
def listMapE {α β : Type} (f : α → Except PErr β) : List α → Except PErr (List β)
  | [] => .ok []
  | x :: xs =>
    match f x with
    | .error e => .error e
    | .ok y =>
      match listMapE f xs with
      | .error e => .error e
      | .ok ys => .ok (y :: ys)

/-- The per-group part of `LogItem._compute_events`: strip the group, delete
commas, split on single spaces, then parse each non-empty token and keep a
`none` placeholder for each empty one. -/
def parseChangeGroup (group : PyStr) : Except PErr (List (Option StateChange)) :=
  listMapE
    (fun tok =>
      if pstrip tok ≠ [] then
        match parseStateChange (pstrip tok) with
        | .error e => .error e
        | .ok ch => .ok (some ch)
      else .ok none)
    (((pstrip group).filter fun c => c ≠ ',').splitOn ' ')

/-- `LogItem._compute_events`: zip the action sub-items with the change-group
sub-items and parse each aligned pair. -/
def compute_events (actionsCell changesCell : Cell) : Except PErr (List Event) :=
  listMapE
    (fun p =>
      match parseChangeGroup p.2 with
      | .error e => .error e
      | .ok deltas => .ok (pstrip p.1, deltas))
    (actionsCell.divs.zip changesCell.divs)

/-- `LogItem.parse_from_HTML`. -/
def parseLogItem (row : RawRow) : Except PErr LogItem :=
  match row.cells with
  | [] => .error .malformedRow
  | c0 :: rest =>
    let text := pstrip c0.str
    let faction := get_faction text
    match rest with
    | [c1, c2] =>
      match compute_events c1 c2 with
      | .error e => .error e
      | .ok evs => .ok ⟨text, faction, some evs⟩
    | _ => .ok ⟨text, faction, none⟩

/-- `GameLog`. -/
structure GameLog where
  factions : List PyStr
  items : List LogItem
deriving DecidableEq, Repr

/-- The faction-collection loop of `GameLog.parse_from_HTML` (the Python set
is modelled as a duplicate-free list). -/
def collectFactions (items : List LogItem) : List PyStr :=
  items.foldl
    (fun acc item =>
      match item.faction with
      | some f => if pstrip f ∈ acc then acc else acc ++ [pstrip f]
      | none => acc)
    []

/-- `GameLog.parse_from_HTML`, from the raw row list onward: the source
presents rows latest-first and they are reversed before parsing. -/
def parseGameLog (rows : List RawRow) : Except PErr GameLog :=
  match listMapE parseLogItem rows.reverse with
  | .error e => .error e
  | .ok items => .ok ⟨collectFactions items, items⟩

/-- The body of the `Stats.__init__` loop for one log item.  Python skips an
item whose faction or event list is falsy (absent or empty); the dict lookup
`faction_stats[item.faction]` raises `KeyError` outside the faction set. -/
def statsStep (factions : List PyStr) (m : PyStr → FactionStats) :
    LogItem → Except PErr (PyStr → FactionStats)
  | ⟨_, some f, some evs⟩ =>
    if f = [] ∨ evs = [] then .ok m
    else if f ∈ factions then
      match listFoldE augment (m f) evs with
      | .error e => .error e
      | .ok fs => .ok (fun g => if g = f then fs else m g)
    else .error .keyError
  | ⟨_, some _, none⟩ => .ok m
  | ⟨_, none, _⟩ => .ok m

/-- `Stats.__init__`: one `FactionStats` per faction, then one aggregation
pass over the log items in chronological order. -/
def statsOfLog (log : GameLog) : Except PErr (PyStr → FactionStats) :=
  listFoldE (statsStep log.factions) (fun f => FactionStats.init f) log.items

/-- The full pipeline from raw rows to statistics. -/
def statsOfRows (rows : List RawRow) : Except PErr (PyStr → FactionStats) :=
  match parseGameLog rows with
  | .error e => .error e
  | .ok log => statsOfLog log

/-- One row of the VP-percentage table in `Stats.breakdown_vp`.  Python's
division raises `ZeroDivisionError` when `stats.vp` is zero; the quotients
are modelled exactly, as rationals. -/
def breakdownPercentRow (s : FactionStats) : Except PErr (List ℚ) :=
  if s.vp = 0 then .error .zeroDivision
  else .ok
    [(s.vp_from_round_scoring : ℚ) / (s.vp : ℚ) * 100,
     (s.vp_from_boosters : ℚ) / (s.vp : ℚ) * 100,
     (s.vp_from_endgame : ℚ) / (s.vp : ℚ) * 100,
     (s.vp_from_techs : ℚ) / (s.vp : ℚ) * 100,
     (s.vp_from_adv_techs : ℚ) / (s.vp : ℚ) * 100,
     (s.vp_from_feds : ℚ) / (s.vp : ℚ) * 100,
     (s.vp_from_qic_act : ℚ) / (s.vp : ℚ) * 100,
     (s.vp_from_tracks : ℚ) / (s.vp : ℚ) * 100,
     (s.vp_from_resources : ℚ) / (s.vp : ℚ) * 100,
     (s.vp_lost_from_leech : ℚ) / (s.vp : ℚ) * 100]

/-- The VP-percentage table of `Stats.breakdown_vp` over the faction list. -/
def breakdownPercent (factions : List PyStr) (m : PyStr → FactionStats) :
    Except PErr (List (PyStr × List ℚ)) :=
  listMapE
    (fun f =>
      match breakdownPercentRow (m f) with
      | .error e => .error e
      | .ok row => .ok (f, row))
    factions

/-- Gain-direction VP quantity carried by one delta position. -/
def gainVP : Option StateChange → Nat
  | some ch =>
    if ch.resource = some Res.VP ∧ ch.type = ChangeType.GAIN then ch.quantity else 0
  | none => 0

/-- Loss-direction VP quantity carried by one delta position. -/
def lossVP : Option StateChange → Nat
  | some ch =>
    if ch.resource = some Res.VP ∧ ch.type = ChangeType.LOSS then ch.quantity else 0
  | none => 0

/-- Sum of Gain-direction VP quantities over one event's deltas. -/
def eventGainVP (e : Event) : Nat := (e.2.map gainVP).sum

/-- Sum of Loss-direction VP quantities over one event's deltas. -/
def eventLossVP (e : Event) : Nat := (e.2.map lossVP).sum

/-- The events of one log item that the aggregation pass charges to
faction `f` (those of an item carrying that faction and a non-empty
event list). -/
def itemEvents (f : PyStr) : LogItem → List Event
  | ⟨_, some g, some es⟩ => if g = f ∧ ¬g = [] ∧ ¬es = [] then es else []
  | ⟨_, some _, none⟩ => []
  | ⟨_, none, _⟩ => []

/-- All events the aggregation pass charges to faction `f`, in order. -/
def factionEvents (f : PyStr) : List LogItem → List Event
  | [] => []
  | item :: items => itemEvents f item ++ factionEvents f items

/-- Sum of Gain-direction VP quantities over a list of events. -/
def eventsGainVP (es : List Event) : Nat := (es.map eventGainVP).sum

/-- Sum of Loss-direction VP quantities over a list of events. -/
def eventsLossVP (es : List Event) : Nat := (es.map eventLossVP).sum

/-- The per-kind cumulative-gain counter of `ResourceStats`
(`_RESOURCE_TO_FIELD_MAP` composed with `getattr`); `VP` has no resource
field and reads as zero here. -/
def resField (r : Res) (s : FactionStats) : Nat :=
  match r with
  | Res.POWER => s.power
  | Res.COIN => s.coins
  | Res.ORE => s.ore
  | Res.KNOWLEDGE => s.knowledge
  | Res.QIC => s.qic
  | Res.PT => s.pt
  | Res.VP => 0

/-- Fixture: a raw row from plain strings (description, action sub-items,
change-group sub-items). -/
def mkRow (text : String) (acts : List String) (chs : List String) : RawRow :=
  ⟨[⟨text.toList, []⟩, ⟨[], acts.map String.toList⟩, ⟨[], chs.map String.toList⟩]⟩

/-- Fixture: two raw rows, latest action first as the source presents them. -/
def witRows : List RawRow :=
  [mkRow "terrans round2" ["round"] ["2vp"],
   mkRow "terrans leech" ["charge"] ["3vp"]]

/-- Fixture: a one-faction game log with one federation event. -/
def witLog : GameLog :=
  ⟨["terrans".toList],
   [⟨"terrans build".toList, some "terrans".toList,
     some [("federation".toList,
            [some ⟨ChangeType.GAIN, some Res.VP, 4⟩,
             some ⟨ChangeType.LOSS, some Res.VP, 1⟩])]⟩]⟩

-- sanity checks on concrete tokens
example : parseStateChange "-12k".toList =
    .ok ⟨ChangeType.LOSS, some Res.KNOWLEDGE, 12⟩ := by decide
example : parseStateChange "4vp".toList =
    .ok ⟨ChangeType.GAIN, some Res.VP, 4⟩ := by decide
example : parseStateChange "2pw".toList =
    .ok ⟨ChangeType.GAIN, some Res.POWER, 2⟩ := by decide
example : parseStateChange "3".toList =
    .ok ⟨ChangeType.GAIN, none, 3⟩ := by decide
example : parseStateChange "abc".toList = .error .malformedToken := by decide

/-! ### Helper lemmas -/

theorem listMapE_error_mem {α β : Type} (f : α → Except PErr β) (l : List α) (e : PErr)
    (h : listMapE f l = .error e) : ∃ x ∈ l, f x = .error e := by
  induction l with
  | nil => simp [listMapE] at h
  | cons x xs ih =>
    rw [listMapE] at h
    cases hf : f x with
    | error e2 =>
      rw [hf] at h
      simp only [Except.error.injEq] at h
      exact ⟨x, List.mem_cons_self x xs, by rw [hf, h]⟩
    | ok y =>
      rw [hf] at h
      cases hm : listMapE f xs with
      | error e2 =>
        rw [hm] at h
        simp only [Except.error.injEq] at h
        obtain ⟨z, hz, hfz⟩ := ih (by rw [hm, h])
        exact ⟨z, List.mem_cons_of_mem x hz, hfz⟩
      | ok ys => rw [hm] at h; exact absurd h (by simp)

theorem parseStateChange_ne_malformedRow (t : PyStr) :
    parseStateChange t ≠ .error .malformedRow := by
  cases t with
  | nil => simp [parseStateChange]
  | cons c cs =>
    rw [parseStateChange]
    cases hf : firstDigitRun (c :: cs) with
    | none => simp
    | some q => simp

theorem parseChangeGroup_ne_malformedRow (g : PyStr) (e : PErr)
    (h : parseChangeGroup g = .error e) : e ≠ PErr.malformedRow := by
  obtain ⟨tok, _, htok⟩ := listMapE_error_mem _ _ _ h
  by_cases hs : pstrip tok ≠ []
  · rw [if_pos hs] at htok
    cases hp : parseStateChange (pstrip tok) with
    | error e2 =>
      rw [hp] at htok
      simp only [Except.error.injEq] at htok
      intro he
      exact parseStateChange_ne_malformedRow (pstrip tok) (by rw [hp, htok, he])
    | ok ch => rw [hp] at htok; exact absurd htok (by simp)
  · rw [if_neg hs] at htok; exact absurd htok (by simp)

theorem compute_events_ne_malformedRow (c1 c2 : Cell) (e : PErr)
    (h : compute_events c1 c2 = .error e) : e ≠ PErr.malformedRow := by
  obtain ⟨p, _, hp⟩ := listMapE_error_mem _ _ _ h
  cases hg : parseChangeGroup p.2 with
  | error e2 =>
    rw [hg] at hp
    simp only [Except.error.injEq] at hp
    exact hp ▸ parseChangeGroup_ne_malformedRow p.2 e2 hg
  | ok ds => rw [hg] at hp; exact absurd hp (by simp)

theorem firstDigitRun_eq_none_iff (t : PyStr) :
    firstDigitRun t = none ↔ ∀ c ∈ t, c.isDigit = false := by
  induction t with
  | nil => simp [firstDigitRun]
  | cons c rest ih =>
    rw [firstDigitRun]
    by_cases hc : c.isDigit
    · simp [hc]
    · simp only [Bool.not_eq_true] at hc
      simp [hc, ih]

theorem firstDigitRun_eq_some_val (t : PyStr) (q : Nat) (h : firstDigitRun t = some q) :
    q = digitsVal ((t.dropWhile fun c => !c.isDigit).takeWhile Char.isDigit) := by
  induction t with
  | nil => simp [firstDigitRun] at h
  | cons c rest ih =>
    rw [firstDigitRun] at h
    by_cases hc : c.isDigit
    · rw [if_pos hc] at h
      simp only [Option.some.injEq] at h
      rw [← h, List.dropWhile_cons]
      simp [hc, List.takeWhile_cons]
    · rw [if_neg hc] at h
      simp only [Bool.not_eq_true] at hc
      rw [List.dropWhile_cons]
      simp only [hc, Bool.not_false, if_true]
      exact ih h

theorem find?_eq_of_first {α : Type} (l : List α) (p : α → Bool) (i : Nat)
    (hi : i < l.length) (hp : p (l.get ⟨i, hi⟩) = true)
    (hbefore : ∀ j (hj : j < i), p (l.get ⟨j, Nat.lt_trans hj hi⟩) = false) :
    l.find? p = some (l.get ⟨i, hi⟩) := by
  induction l generalizing i with
  | nil => simp at hi
  | cons x xs ih =>
    cases i with
    | zero => exact List.find?_cons_of_pos _ hp
    | succ n =>
      have hx : p x = false := hbefore 0 (Nat.succ_pos n)
      rw [List.find?_cons_of_neg _ (by simp [hx])]
      exact ih n (Nat.lt_of_succ_lt_succ hi) hp
        (fun j hj => hbefore (j + 1) (Nat.succ_lt_succ hj))


theorem digit_ne_dash (c : Char) (h : c.isDigit = true) : ¬c = '-' := by
  intro heq
  rw [heq] at h
  exact absurd h (by decide)

theorem takeWhile_append_of_all (p : Char → Bool) (l1 l2 : List Char)
    (h : ∀ c ∈ l1, p c = true) :
    (l1 ++ l2).takeWhile p = l1 ++ l2.takeWhile p := by
  induction l1 with
  | nil => simp
  | cons x xs ih =>
    rw [List.cons_append, List.takeWhile_cons, if_pos (h x (by simp)),
      ih fun c hc => h c (by simp [hc]), List.cons_append]

theorem firstDigitRun_cons_of_not_digit (c : Char) (t : PyStr)
    (hc : c.isDigit = false) : firstDigitRun (c :: t) = firstDigitRun t := by
  rw [firstDigitRun, hc]
  simp

theorem firstDigitRun_digits_append (d : Char) (ds2 suf : PyStr)
    (hd : d.isDigit = true) (hds : ∀ c ∈ ds2, c.isDigit = true)
    (htw : suf.takeWhile Char.isDigit = []) :
    firstDigitRun (d :: (ds2 ++ suf)) = some (digitsVal (d :: ds2)) := by
  rw [firstDigitRun, if_pos hd, takeWhile_append_of_all Char.isDigit ds2 suf hds,
    htw, List.append_nil]

theorem firstDigitRun_signed (sign : PyStr)
    (hsign : sign = [] ∨ sign = ['+'] ∨ sign = ['-'])
    (d : Char) (ds2 suf : PyStr) (hd : d.isDigit = true)
    (hds : ∀ c ∈ ds2, c.isDigit = true) (htw : suf.takeWhile Char.isDigit = []) :
    firstDigitRun (sign ++ (d :: (ds2 ++ suf))) = some (digitsVal (d :: ds2)) := by
  have base := firstDigitRun_digits_append d ds2 suf hd hds htw
  rcases hsign with rfl | rfl | rfl
  · simpa using base
  · simp only [List.cons_append, List.nil_append]
    rw [firstDigitRun_cons_of_not_digit _ _ (by decide)]
    exact base
  · simp only [List.cons_append, List.nil_append]
    rw [firstDigitRun_cons_of_not_digit _ _ (by decide)]
    exact base

theorem isSuffixOf_append_self (X b : PyStr) : b.isSuffixOf (X ++ b) = true := by
  rw [List.isSuffixOf_iff_suffix]
  exact List.suffix_append X b

theorem not_isSuffixOf_append_of_last_ne (a b X : PyStr) (ha : a ≠ []) (hb : b ≠ [])
    (h : a.getLast? ≠ b.getLast?) : ¬a.isSuffixOf (X ++ b) = true := by
  rw [List.isSuffixOf_iff_suffix]
  intro hs
  obtain ⟨t2, ht⟩ := hs
  have h1 : (t2 ++ a).getLast? = a.getLast? := List.getLast?_append_of_ne_nil _ ha
  have h2 : (X ++ b).getLast? = b.getLast? := List.getLast?_append_of_ne_nil _ hb
  rw [ht] at h1
  exact h (h1.symm.trans h2)








theorem resLookup_coin (X : PyStr) :
    (RESOURCE_MAP.find? fun p => p.1.isSuffixOf (X ++ ['c'])) =
      some (['c'], Res.COIN) := by
  rw [RESOURCE_MAP]
  exact List.find?_cons_of_pos _ (isSuffixOf_append_self X ['c'])

theorem resLookup_ore (X : PyStr) :
    (RESOURCE_MAP.find? fun p => p.1.isSuffixOf (X ++ ['o'])) =
      some (['o'], Res.ORE) := by
  rw [RESOURCE_MAP]
  rw [@List.find?_cons_of_neg _ (fun p => p.1.isSuffixOf (X ++ ['o']))
    (['c'], Res.COIN) _
    (not_isSuffixOf_append_of_last_ne ['c'] ['o'] X (by decide) (by decide)
      (by decide))]
  exact List.find?_cons_of_pos _ (isSuffixOf_append_self X ['o'])

theorem resLookup_knowledge (X : PyStr) :
    (RESOURCE_MAP.find? fun p => p.1.isSuffixOf (X ++ ['k'])) =
      some (['k'], Res.KNOWLEDGE) := by
  rw [RESOURCE_MAP]
  rw [@List.find?_cons_of_neg _ (fun p => p.1.isSuffixOf (X ++ ['k']))
    (['c'], Res.COIN) _
    (not_isSuffixOf_append_of_last_ne ['c'] ['k'] X (by decide) (by decide)
      (by decide))]
  rw [@List.find?_cons_of_neg _ (fun p => p.1.isSuffixOf (X ++ ['k']))
    (['o'], Res.ORE) _
    (not_isSuffixOf_append_of_last_ne ['o'] ['k'] X (by decide) (by decide)
      (by decide))]
  exact List.find?_cons_of_pos _ (isSuffixOf_append_self X ['k'])

theorem resLookup_qic (X : PyStr) :
    (RESOURCE_MAP.find? fun p => p.1.isSuffixOf (X ++ ['q'])) =
      some (['q'], Res.QIC) := by
  rw [RESOURCE_MAP]
  rw [@List.find?_cons_of_neg _ (fun p => p.1.isSuffixOf (X ++ ['q']))
    (['c'], Res.COIN) _
    (not_isSuffixOf_append_of_last_ne ['c'] ['q'] X (by decide) (by decide)
      (by decide))]
  rw [@List.find?_cons_of_neg _ (fun p => p.1.isSuffixOf (X ++ ['q']))
    (['o'], Res.ORE) _
    (not_isSuffixOf_append_of_last_ne ['o'] ['q'] X (by decide) (by decide)
      (by decide))]
  rw [@List.find?_cons_of_neg _ (fun p => p.1.isSuffixOf (X ++ ['q']))
    (['k'], Res.KNOWLEDGE) _
    (not_isSuffixOf_append_of_last_ne ['k'] ['q'] X (by decide) (by decide)
      (by decide))]
  exact List.find?_cons_of_pos _ (isSuffixOf_append_self X ['q'])

theorem resLookup_power (X : PyStr) :
    (RESOURCE_MAP.find? fun p => p.1.isSuffixOf (X ++ ['p', 'w'])) =
      some (['p', 'w'], Res.POWER) := by
  rw [RESOURCE_MAP]
  rw [@List.find?_cons_of_neg _ (fun p => p.1.isSuffixOf (X ++ ['p', 'w']))
    (['c'], Res.COIN) _
    (not_isSuffixOf_append_of_last_ne ['c'] ['p', 'w'] X (by decide) (by decide)
      (by decide))]
  rw [@List.find?_cons_of_neg _ (fun p => p.1.isSuffixOf (X ++ ['p', 'w']))
    (['o'], Res.ORE) _
    (not_isSuffixOf_append_of_last_ne ['o'] ['p', 'w'] X (by decide) (by decide)
      (by decide))]
  rw [@List.find?_cons_of_neg _ (fun p => p.1.isSuffixOf (X ++ ['p', 'w']))
    (['k'], Res.KNOWLEDGE) _
    (not_isSuffixOf_append_of_last_ne ['k'] ['p', 'w'] X (by decide) (by decide)
      (by decide))]
  rw [@List.find?_cons_of_neg _ (fun p => p.1.isSuffixOf (X ++ ['p', 'w']))
    (['q'], Res.QIC) _
    (not_isSuffixOf_append_of_last_ne ['q'] ['p', 'w'] X (by decide) (by decide)
      (by decide))]
  exact List.find?_cons_of_pos _ (isSuffixOf_append_self X ['p', 'w'])

theorem resLookup_pt (X : PyStr) :
    (RESOURCE_MAP.find? fun p => p.1.isSuffixOf (X ++ ['t'])) =
      some (['t'], Res.PT) := by
  rw [RESOURCE_MAP]
  rw [@List.find?_cons_of_neg _ (fun p => p.1.isSuffixOf (X ++ ['t']))
    (['c'], Res.COIN) _
    (not_isSuffixOf_append_of_last_ne ['c'] ['t'] X (by decide) (by decide)
      (by decide))]
  rw [@List.find?_cons_of_neg _ (fun p => p.1.isSuffixOf (X ++ ['t']))
    (['o'], Res.ORE) _
    (not_isSuffixOf_append_of_last_ne ['o'] ['t'] X (by decide) (by decide)
      (by decide))]
  rw [@List.find?_cons_of_neg _ (fun p => p.1.isSuffixOf (X ++ ['t']))
    (['k'], Res.KNOWLEDGE) _
    (not_isSuffixOf_append_of_last_ne ['k'] ['t'] X (by decide) (by decide)
      (by decide))]
  rw [@List.find?_cons_of_neg _ (fun p => p.1.isSuffixOf (X ++ ['t']))
    (['q'], Res.QIC) _
    (not_isSuffixOf_append_of_last_ne ['q'] ['t'] X (by decide) (by decide)
      (by decide))]
  rw [@List.find?_cons_of_neg _ (fun p => p.1.isSuffixOf (X ++ ['t']))
    (['p', 'w'], Res.POWER) _
    (not_isSuffixOf_append_of_last_ne ['p', 'w'] ['t'] X (by decide) (by decide)
      (by decide))]
  exact List.find?_cons_of_pos _ (isSuffixOf_append_self X ['t'])

theorem resLookup_vp (X : PyStr) :
    (RESOURCE_MAP.find? fun p => p.1.isSuffixOf (X ++ ['v', 'p'])) =
      some (['v', 'p'], Res.VP) := by
  rw [RESOURCE_MAP]
  rw [@List.find?_cons_of_neg _ (fun p => p.1.isSuffixOf (X ++ ['v', 'p']))
    (['c'], Res.COIN) _
    (not_isSuffixOf_append_of_last_ne ['c'] ['v', 'p'] X (by decide) (by decide)
      (by decide))]
  rw [@List.find?_cons_of_neg _ (fun p => p.1.isSuffixOf (X ++ ['v', 'p']))
    (['o'], Res.ORE) _
    (not_isSuffixOf_append_of_last_ne ['o'] ['v', 'p'] X (by decide) (by decide)
      (by decide))]
  rw [@List.find?_cons_of_neg _ (fun p => p.1.isSuffixOf (X ++ ['v', 'p']))
    (['k'], Res.KNOWLEDGE) _
    (not_isSuffixOf_append_of_last_ne ['k'] ['v', 'p'] X (by decide) (by decide)
      (by decide))]
  rw [@List.find?_cons_of_neg _ (fun p => p.1.isSuffixOf (X ++ ['v', 'p']))
    (['q'], Res.QIC) _
    (not_isSuffixOf_append_of_last_ne ['q'] ['v', 'p'] X (by decide) (by decide)
      (by decide))]
  rw [@List.find?_cons_of_neg _ (fun p => p.1.isSuffixOf (X ++ ['v', 'p']))
    (['p', 'w'], Res.POWER) _
    (not_isSuffixOf_append_of_last_ne ['p', 'w'] ['v', 'p'] X (by decide) (by decide)
      (by decide))]
  rw [@List.find?_cons_of_neg _ (fun p => p.1.isSuffixOf (X ++ ['v', 'p']))
    (['t'], Res.PT) _
    (not_isSuffixOf_append_of_last_ne ['t'] ['v', 'p'] X (by decide) (by decide)
      (by decide))]
  exact List.find?_cons_of_pos _ (isSuffixOf_append_self X ['v', 'p'])

/-! ### Claim theorems -/

/-- C6: accumulating an event whose action label equals "charge" and whose
delta is a Gain of n VictoryPoints adds n to the faction's total victory
points and subtracts n from the leech bucket counter, leaving every other
bucket unchanged — the sign inversion distinguishing the leech bucket from
all other victory-point buckets. -/
theorem charge_gain_inverts_leech_bucket (s : FactionStats) (n : Nat) :
    augment s ("charge".toList, [some ⟨ChangeType.GAIN, some Res.VP, n⟩]) =
      .ok { s with vp := s.vp + n, vp_lost_from_leech := s.vp_lost_from_leech - n } := rfl

/-- C2 (code bug): the accumulator does not skip an absent delta.  The change
group "2c  3o" (with a doubled space) parses to a delta list whose middle
position is absent, and running the pipeline on a row holding it fails with
an AttributeError on that position instead of skipping it. -/
theorem absent_delta_not_skipped :
    parseChangeGroup "2c  3o".toList =
      .ok [some ⟨ChangeType.GAIN, some Res.COIN, 2⟩, none,
           some ⟨ChangeType.GAIN, some Res.ORE, 3⟩] ∧
    statsOfRows [mkRow "terrans act" ["build"] ["2c  3o"]] =
      .error .attributeError :=
  ⟨rfl, rfl⟩

/-- C7: for a delta with a resolved non-VP resource, a Loss leaves every
resource counter unchanged, while a Gain adds the quantity to the counter of
the delta's specific kind, leaves every other kind unchanged, and
additionally adds the quantity to the leech-resource counter exactly when
the action label equals "charge". -/
theorem update_resources_spec (action : PyStr) (s : FactionStats) (ch : StateChange)
    (r : Res) (hr : ch.resource = some r) (hvp : r ≠ Res.VP) :
    (ch.type = ChangeType.LOSS → update_resources action s ch = .ok s) ∧
    (ch.type = ChangeType.GAIN →
      ∃ s2, update_resources action s ch = .ok s2 ∧
        resField r s2 = resField r s + ch.quantity ∧
        (∀ r2 : Res, r2 ≠ r → resField r2 s2 = resField r2 s) ∧
        s2.leech = s.leech +
          (if action = chargeStr then ch.quantity else 0)) := by
  obtain ⟨ty, res, q⟩ := ch
  simp only [StateChange.resource] at hr
  subst hr
  cases ty with
  | LOSS =>
    refine ⟨fun _ => by simp [update_resources], fun h => by simp at h⟩
  | GAIN =>
    refine ⟨fun h => by simp at h, fun _ => ?_⟩
    cases r with
    | VP => exact absurd rfl hvp
    | COIN =>
      refine ⟨{ s with
          leech := s.leech + (if action = chargeStr then q else 0),
          coins := s.coins + q }, ?_, rfl, ?_, rfl⟩
      · by_cases hc : action = chargeStr
        · subst hc; rfl
        · simp [update_resources, if_neg hc]
      · intro r2 hr2; cases r2 <;> first | rfl | exact absurd rfl hr2
    | ORE =>
      refine ⟨{ s with
          leech := s.leech + (if action = chargeStr then q else 0),
          ore := s.ore + q }, ?_, rfl, ?_, rfl⟩
      · by_cases hc : action = chargeStr
        · subst hc; rfl
        · simp [update_resources, if_neg hc]
      · intro r2 hr2; cases r2 <;> first | rfl | exact absurd rfl hr2
    | KNOWLEDGE =>
      refine ⟨{ s with
          leech := s.leech + (if action = chargeStr then q else 0),
          knowledge := s.knowledge + q }, ?_, rfl, ?_, rfl⟩
      · by_cases hc : action = chargeStr
        · subst hc; rfl
        · simp [update_resources, if_neg hc]
      · intro r2 hr2; cases r2 <;> first | rfl | exact absurd rfl hr2
    | QIC =>
      refine ⟨{ s with
          leech := s.leech + (if action = chargeStr then q else 0),
          qic := s.qic + q }, ?_, rfl, ?_, rfl⟩
      · by_cases hc : action = chargeStr
        · subst hc; rfl
        · simp [update_resources, if_neg hc]
      · intro r2 hr2; cases r2 <;> first | rfl | exact absurd rfl hr2
    | POWER =>
      refine ⟨{ s with
          leech := s.leech + (if action = chargeStr then q else 0),
          power := s.power + q }, ?_, rfl, ?_, rfl⟩
      · by_cases hc : action = chargeStr
        · subst hc; rfl
        · simp [update_resources, if_neg hc]
      · intro r2 hr2; cases r2 <;> first | rfl | exact absurd rfl hr2
    | PT =>
      refine ⟨{ s with
          leech := s.leech + (if action = chargeStr then q else 0),
          pt := s.pt + q }, ?_, rfl, ?_, rfl⟩
      · by_cases hc : action = chargeStr
        · subst hc; rfl
        · simp [update_resources, if_neg hc]
      · intro r2 hr2; cases r2 <;> first | rfl | exact absurd rfl hr2

/-- C9: the row classifier fails with MalformedRow exactly on a row with zero
cells; a produced LogEntry has events exactly when the row has three cells
(two side cells besides the description); any other positive cell count
yields a LogEntry whose events are absent. -/
theorem row_classifier_spec (row : RawRow) :
    (parseLogItem row = .error .malformedRow ↔ row.cells = []) ∧
    (∀ item, parseLogItem row = .ok item →
      (item.events.isSome ↔ row.cells.length = 3)) ∧
    (row.cells ≠ [] → row.cells.length ≠ 3 →
      ∃ item, parseLogItem row = .ok item ∧ item.events = none) := by
  obtain ⟨cells⟩ := row
  rcases cells with _ | ⟨c0, _ | ⟨c1, _ | ⟨c2, _ | ⟨c3, rest⟩⟩⟩⟩
  · refine ⟨by simp [parseLogItem], ?_, ?_⟩
    · intro item h; exact absurd h (by simp [parseLogItem])
    · intro h _; exact absurd rfl h
  · refine ⟨by simp [parseLogItem], ?_, fun _ _ => ⟨_, rfl, rfl⟩⟩
    intro item h
    simp only [parseLogItem] at h
    rw [← Except.ok.inj h]
    simp
  · refine ⟨by simp [parseLogItem], ?_, fun _ _ => ⟨_, rfl, rfl⟩⟩
    intro item h
    simp only [parseLogItem] at h
    rw [← Except.ok.inj h]
    simp
  · cases hce : compute_events c1 c2 with
    | error e =>
      refine ⟨?_, ?_, ?_⟩
      · simp only [parseLogItem, hce]
        simp only [Except.error.injEq]
        constructor
        · intro he; exact absurd he (compute_events_ne_malformedRow c1 c2 e hce)
        · intro he; simp at he
      · intro item h
        simp only [parseLogItem] at h
        rw [hce] at h
        exact absurd h (by simp)
      · intro _ h3; exact absurd rfl h3
    | ok evs =>
      refine ⟨?_, ?_, ?_⟩
      · simp only [parseLogItem]
        rw [hce]
        simp
      · intro item h
        simp only [parseLogItem] at h
        rw [hce] at h
        rw [← Except.ok.inj h]
        simp
      · intro _ h3; exact absurd rfl h3
  · refine ⟨by simp [parseLogItem], ?_, fun _ _ => ⟨_, rfl, rfl⟩⟩
    intro item h
    simp only [parseLogItem] at h
    rw [← Except.ok.inj h]
    simp only [LogItem.events, Option.isSome_none, List.length_cons]
    constructor
    · intro hfalse; exact absurd hfalse (by simp)
    · intro hlen; omega

/-- C9 witness: the three-cell fixture row yields events; the empty row is a
MalformedRow error. -/
theorem row_classifier_spec_witness :
    (parseLogItem ⟨[]⟩ = .error .malformedRow ↔ (⟨[]⟩ : RawRow).cells = []) ∧
    (∃ item, parseLogItem ⟨[⟨"terrans pass".toList, []⟩]⟩ = .ok item ∧
      item.events = none) :=
  ⟨(row_classifier_spec ⟨[]⟩).1,
   (row_classifier_spec ⟨[⟨"terrans pass".toList, []⟩]⟩).2.2 (by simp) (by simp)⟩

/-- C10: the percentage-breakdown view fails (by dividing by zero) as soon as
a faction's total victory points are zero, and otherwise reports, for each
faction, each category counter divided by total victory points times 100. -/
theorem breakdown_percent_spec (factions : List PyStr) (m : PyStr → FactionStats) :
    ((∃ f ∈ factions, (m f).vp = 0) →
      breakdownPercent factions m = .error .zeroDivision) ∧
    ((∀ f ∈ factions, (m f).vp ≠ 0) →
      breakdownPercent factions m =
        .ok (factions.map fun f =>
          (f, [((m f).vp_from_round_scoring : ℚ) / ((m f).vp : ℚ) * 100,
               ((m f).vp_from_boosters : ℚ) / ((m f).vp : ℚ) * 100,
               ((m f).vp_from_endgame : ℚ) / ((m f).vp : ℚ) * 100,
               ((m f).vp_from_techs : ℚ) / ((m f).vp : ℚ) * 100,
               ((m f).vp_from_adv_techs : ℚ) / ((m f).vp : ℚ) * 100,
               ((m f).vp_from_feds : ℚ) / ((m f).vp : ℚ) * 100,
               ((m f).vp_from_qic_act : ℚ) / ((m f).vp : ℚ) * 100,
               ((m f).vp_from_tracks : ℚ) / ((m f).vp : ℚ) * 100,
               ((m f).vp_from_resources : ℚ) / ((m f).vp : ℚ) * 100,
               ((m f).vp_lost_from_leech : ℚ) / ((m f).vp : ℚ) * 100]))) := by
  constructor
  · intro hex
    induction factions with
    | nil => obtain ⟨f, hf, _⟩ := hex; simp at hf
    | cons g gs ih =>
      obtain ⟨f, hf, hvp⟩ := hex
      rw [breakdownPercent, listMapE]
      by_cases hg : (m g).vp = 0
      · rw [breakdownPercentRow, if_pos hg]
      · rw [breakdownPercentRow, if_neg hg]
        have hf2 : f ∈ gs := by
          rcases List.mem_cons.mp hf with h | h
          · exact absurd (h ▸ hvp) hg
          · exact h
        have := ih ⟨f, hf2, hvp⟩
        rw [breakdownPercent] at this
        rw [this]
  · intro hall
    induction factions with
    | nil => rfl
    | cons g gs ih =>
      rw [breakdownPercent, listMapE, breakdownPercentRow,
        if_neg (hall g (List.mem_cons_self g gs))]
      have := ih fun f hf => hall f (List.mem_cons_of_mem g hf)
      rw [breakdownPercent] at this
      rw [this, List.map_cons]

/-- C10 witness: a zero-total faction makes the percentage view fail; the
freshly initialized faction (total 10, all counters 0) reports all zeros. -/
theorem breakdown_percent_spec_witness :
    breakdownPercent ["terrans".toList]
        (fun _ => { FactionStats.init "terrans".toList with vp := 0 }) =
      .error .zeroDivision ∧
    breakdownPercent ["terrans".toList] (fun _ => FactionStats.init "terrans".toList) =
      .ok [("terrans".toList, [0, 0, 0, 0, 0, 0, 0, 0, 0, 0])] := by
  constructor
  · exact (breakdown_percent_spec _ _).1 ⟨"terrans".toList, by simp, rfl⟩
  · have h := (breakdown_percent_spec ["terrans".toList]
      (fun _ => FactionStats.init "terrans".toList)).2 (by decide)
    simpa [FactionStats.init] using h

/-- C7 witness: a concrete Gain of 3 Ore under action "charge". -/
theorem update_resources_spec_witness :
    (ChangeType.GAIN = ChangeType.LOSS →
      update_resources chargeStr (FactionStats.init "terrans".toList)
        ⟨ChangeType.GAIN, some Res.ORE, 3⟩ = .ok (FactionStats.init "terrans".toList)) ∧
    (ChangeType.GAIN = ChangeType.GAIN →
      ∃ s2, update_resources chargeStr (FactionStats.init "terrans".toList)
          ⟨ChangeType.GAIN, some Res.ORE, 3⟩ = .ok s2 ∧
        resField Res.ORE s2 = resField Res.ORE (FactionStats.init "terrans".toList) + 3 ∧
        (∀ r2 : Res, r2 ≠ Res.ORE →
          resField r2 s2 = resField r2 (FactionStats.init "terrans".toList)) ∧
        s2.leech = (FactionStats.init "terrans".toList).leech +
          (if chargeStr = chargeStr then 3 else 0)) :=
  update_resources_spec chargeStr (FactionStats.init "terrans".toList)
    ⟨ChangeType.GAIN, some Res.ORE, 3⟩ Res.ORE rfl (by decide)

/-- C5: for a (non-empty, as every token handed to the parser is) token,
parsing fails with MalformedToken exactly when the token holds no decimal
digit; on success the quantity is the first maximal digit run read as a
non-negative integer; and a failed log parse propagates, yielding no
statistics at all. -/
theorem malformed_token_spec (t : PyStr) (h : t ≠ []) :
    (parseStateChange t = .error .malformedToken ↔ ∀ c ∈ t, c.isDigit = false) ∧
    (∀ ch, parseStateChange t = .ok ch →
      ch.quantity =
        digitsVal ((t.dropWhile fun c => !c.isDigit).takeWhile Char.isDigit)) ∧
    (∀ rows e, parseGameLog rows = .error e → statsOfRows rows = .error e) := by
  obtain ⟨c, cs, rfl⟩ : ∃ c cs, t = c :: cs := by
    cases t with
    | nil => exact absurd rfl h
    | cons c cs => exact ⟨c, cs, rfl⟩
  refine ⟨?_, ?_, ?_⟩
  · rw [parseStateChange]
    cases hf : firstDigitRun (c :: cs) with
    | none =>
      exact iff_of_true rfl ((firstDigitRun_eq_none_iff _).mp hf)
    | some q =>
      refine iff_of_false (by simp) fun hall => ?_
      rw [(firstDigitRun_eq_none_iff _).mpr hall] at hf
      cases hf
  · intro ch hch
    rw [parseStateChange] at hch
    cases hf : firstDigitRun (c :: cs) with
    | none => rw [hf] at hch; cases hch
    | some q =>
      rw [hf] at hch
      rw [← Except.ok.inj hch]
      exact firstDigitRun_eq_some_val _ q hf
  · intro rows e he
    rw [statsOfRows, he]

/-- C5 witness: the digit-free token "abc" is a MalformedToken; "a12b" parses
with quantity 12, the first maximal digit run. -/
theorem malformed_token_spec_witness :
    parseStateChange "abc".toList = .error .malformedToken ∧
    (∀ ch, parseStateChange "a12b".toList = .ok ch →
      ch.quantity =
        digitsVal (("a12b".toList.dropWhile fun c => !c.isDigit).takeWhile
          Char.isDigit)) :=
  ⟨(malformed_token_spec "abc".toList (by decide)).1.mpr (by decide),
   (malformed_token_spec "a12b".toList (by decide)).2.1⟩

/-- C8: a token holding a digit run parses successfully, and its resource is
resolved to the first vocabulary entry (in declared order c, o, k, q, pw, t,
vp) whose string is a suffix of the token, or left unresolved when no entry
matches. -/
theorem resource_resolution_spec (t : PyStr) (hne : t ≠ [])
    (hdig : ∃ c ∈ t, c.isDigit = true) :
    ∃ ch, parseStateChange t = .ok ch ∧
      ((∀ p ∈ RESOURCE_MAP, p.1.isSuffixOf t = false) → ch.resource = none) ∧
      (∀ i (hi : i < RESOURCE_MAP.length),
        (RESOURCE_MAP.get ⟨i, hi⟩).1.isSuffixOf t = true →
        (∀ j (hj : j < i),
          (RESOURCE_MAP.get ⟨j, Nat.lt_trans hj hi⟩).1.isSuffixOf t = false) →
        ch.resource = some (RESOURCE_MAP.get ⟨i, hi⟩).2) := by
  obtain ⟨c, cs, rfl⟩ : ∃ c cs, t = c :: cs := by
    cases t with
    | nil => exact absurd rfl hne
    | cons c cs => exact ⟨c, cs, rfl⟩
  obtain ⟨q, hq⟩ : ∃ q, firstDigitRun (c :: cs) = some q := by
    cases hfr : firstDigitRun (c :: cs) with
    | none =>
      obtain ⟨d, hd, hdig⟩ := hdig
      have := (firstDigitRun_eq_none_iff _).mp hfr d hd
      rw [hdig] at this
      cases this
    | some q => exact ⟨q, rfl⟩
  refine ⟨⟨if c = '-' then ChangeType.LOSS else ChangeType.GAIN,
    (RESOURCE_MAP.find? fun p => p.1.isSuffixOf (c :: cs)).map Prod.snd, q⟩,
    ?_, ?_, ?_⟩
  · rw [parseStateChange, hq]
  · intro hnone
    show (RESOURCE_MAP.find? fun p => p.1.isSuffixOf (c :: cs)).map Prod.snd = none
    rw [List.find?_eq_none.mpr fun x hx => by rw [hnone x hx]; simp]
    rfl
  · intro i hi hp hb
    show (RESOURCE_MAP.find? fun p => p.1.isSuffixOf (c :: cs)).map Prod.snd = _
    rw [find?_eq_of_first RESOURCE_MAP _ i hi hp hb]
    rfl

/-- C8 witness: the suffix-free token "3" parses with an unresolved resource;
"2pw" resolves to Power, the first matching entry. -/
theorem resource_resolution_spec_witness :
    (∃ ch, parseStateChange "3".toList = .ok ch ∧ ch.resource = none) ∧
    (∃ ch, parseStateChange "2pw".toList = .ok ch ∧
      ch.resource = some Res.POWER) := by
  constructor
  · obtain ⟨ch, hok, hnone, _⟩ :=
      resource_resolution_spec "3".toList (by decide) ⟨'3', by decide, by decide⟩
    exact ⟨ch, hok, hnone (by decide)⟩
  · obtain ⟨ch, hok, _, hfirst⟩ :=
      resource_resolution_spec "2pw".toList (by decide) ⟨'2', by decide, by decide⟩
    exact ⟨ch, hok, hfirst 4 (by decide) (by decide) (by decide)⟩

theorem parse_wellformed_core (sign : PyStr)
    (hsign : sign = [] ∨ sign = ['+'] ∨ sign = ['-'])
    (ds suf : PyStr) (r : Res) (hne : ds ≠ [])
    (hdig : ∀ c ∈ ds, c.isDigit = true)
    (htw : suf.takeWhile Char.isDigit = [])
    (hfind : (RESOURCE_MAP.find? fun p => p.1.isSuffixOf (sign ++ (ds ++ suf))) =
      some (suf, r)) :
    parseStateChange (sign ++ (ds ++ suf)) =
      .ok ⟨if sign = ['-'] then ChangeType.LOSS else ChangeType.GAIN,
           some r, digitsVal ds⟩ := by
  obtain ⟨d, ds2, rfl⟩ : ∃ d ds2, ds = d :: ds2 := by
    cases ds with
    | nil => exact absurd rfl hne
    | cons d ds2 => exact ⟨d, ds2, rfl⟩
  have hd : d.isDigit = true := hdig d (by simp)
  have hds2 : ∀ c ∈ ds2, c.isDigit = true := fun c hc => hdig c (by simp [hc])
  have hfdr := firstDigitRun_signed sign hsign d ds2 suf hd hds2 htw
  rcases hsign with rfl | rfl | rfl
  · simp only [List.nil_append, List.cons_append] at hfdr hfind ⊢
    rw [parseStateChange, hfdr, hfind, if_neg (digit_ne_dash d hd)]
    rfl
  · simp only [List.nil_append, List.cons_append] at hfdr hfind ⊢
    rw [parseStateChange, hfdr, hfind]
    rfl
  · simp only [List.nil_append, List.cons_append] at hfdr hfind ⊢
    rw [parseStateChange, hfdr, hfind]
    rfl

/-- C4: a well-formed token (optional sign, then decimal digits, then a
vocabulary suffix) parses to a delta whose direction is Loss exactly when
the token starts with a minus sign, whose resource is the kind the suffix
maps to, and whose quantity is the non-negative integer the digits write. -/
theorem wellformed_token_spec (sign ds suf : PyStr) (r : Res)
    (hsign : sign = [] ∨ sign = ['+'] ∨ sign = ['-'])
    (hne : ds ≠ []) (hdig : ∀ c ∈ ds, c.isDigit = true)
    (hsuf : (suf, r) ∈ RESOURCE_MAP) :
    parseStateChange (sign ++ (ds ++ suf)) =
      .ok ⟨if sign = ['-'] then ChangeType.LOSS else ChangeType.GAIN,
           some r, digitsVal ds⟩ := by
  simp only [RESOURCE_MAP, List.mem_cons, List.not_mem_nil, or_false,
    Prod.mk.injEq] at hsuf
  rcases hsuf with ⟨rfl, rfl⟩ | ⟨rfl, rfl⟩ | ⟨rfl, rfl⟩ | ⟨rfl, rfl⟩ |
    ⟨rfl, rfl⟩ | ⟨rfl, rfl⟩ | ⟨rfl, rfl⟩
  · exact parse_wellformed_core sign hsign ds _ _ hne hdig (by decide)
      (by simpa [List.append_assoc] using resLookup_coin (sign ++ ds))
  · exact parse_wellformed_core sign hsign ds _ _ hne hdig (by decide)
      (by simpa [List.append_assoc] using resLookup_ore (sign ++ ds))
  · exact parse_wellformed_core sign hsign ds _ _ hne hdig (by decide)
      (by simpa [List.append_assoc] using resLookup_knowledge (sign ++ ds))
  · exact parse_wellformed_core sign hsign ds _ _ hne hdig (by decide)
      (by simpa [List.append_assoc] using resLookup_qic (sign ++ ds))
  · exact parse_wellformed_core sign hsign ds _ _ hne hdig (by decide)
      (by simpa [List.append_assoc] using resLookup_power (sign ++ ds))
  · exact parse_wellformed_core sign hsign ds _ _ hne hdig (by decide)
      (by simpa [List.append_assoc] using resLookup_pt (sign ++ ds))
  · exact parse_wellformed_core sign hsign ds _ _ hne hdig (by decide)
      (by simpa [List.append_assoc] using resLookup_vp (sign ++ ds))

/-- C4 witness: the token "-12k" parses as a Loss of 12 Knowledge. -/
theorem wellformed_token_spec_witness :
    parseStateChange (['-'] ++ (['1', '2'] ++ ['k'])) =
      .ok ⟨if (['-'] : PyStr) = ['-'] then ChangeType.LOSS else ChangeType.GAIN,
           some Res.KNOWLEDGE, digitsVal ['1', '2']⟩ :=
  wellformed_token_spec ['-'] ['1', '2'] ['k'] Res.KNOWLEDGE (Or.inr (Or.inr rfl))
    (by decide) (by decide) (by decide)

theorem listMapE_ok_length {α β : Type} (f : α → Except PErr β) (l : List α)
    (ys : List β) (h : listMapE f l = .ok ys) : ys.length = l.length := by
  induction l generalizing ys with
  | nil =>
    rw [listMapE] at h
    rw [← Except.ok.inj h]
    rfl
  | cons x xs ih =>
    rw [listMapE] at h
    cases hf : f x with
    | error e => rw [hf] at h; cases h
    | ok y =>
      rw [hf] at h
      cases hm : listMapE f xs with
      | error e => rw [hm] at h; cases h
      | ok zs =>
        rw [hm] at h
        rw [← Except.ok.inj h]
        simp [ih zs hm]

theorem listMapE_ok_getElem {α β : Type} (f : α → Except PErr β) (l : List α)
    (ys : List β) (h : listMapE f l = .ok ys) (i : Nat) :
    ys[i]?.map Except.ok = l[i]?.map f := by
  induction l generalizing ys i with
  | nil =>
    rw [listMapE] at h
    rw [← Except.ok.inj h]
    simp
  | cons x xs ih =>
    rw [listMapE] at h
    cases hf : f x with
    | error e => rw [hf] at h; cases h
    | ok y =>
      rw [hf] at h
      cases hm : listMapE f xs with
      | error e => rw [hm] at h; cases h
      | ok zs =>
        rw [hm] at h
        rw [← Except.ok.inj h]
        cases i with
        | zero => simp [hf]
        | succ n => simp [ih zs hm n]

/-- C3: the constructed game log's entry sequence is the classified form of
the reversed raw-row sequence — entry i is the parse of source row
n - 1 - i, oldest first. -/
theorem log_reversal_spec (rows : List RawRow) (log : GameLog)
    (h : parseGameLog rows = .ok log) :
    log.items.length = rows.length ∧
    ∀ i, i < rows.length →
      log.items[i]?.map Except.ok =
        (rows[rows.length - 1 - i]?).map parseLogItem := by
  rw [parseGameLog] at h
  cases hm : listMapE parseLogItem rows.reverse with
  | error e => rw [hm] at h; cases h
  | ok items =>
    rw [hm] at h
    rw [← Except.ok.inj h]
    constructor
    · have := listMapE_ok_length _ _ _ hm
      simpa using this
    · intro i hi
      have hp := listMapE_ok_getElem _ _ _ hm i
      rw [hp, List.getElem?_reverse (by simpa using hi)]

/-- C3 witness: two rows given latest-first come out oldest-first. -/
theorem log_reversal_spec_witness :
    ∃ log, parseGameLog witRows = .ok log ∧
      (log.items.length = witRows.length ∧
        ∀ i, i < witRows.length →
          log.items[i]?.map Except.ok =
            (witRows[witRows.length - 1 - i]?).map parseLogItem) :=
  ⟨_, rfl, log_reversal_spec witRows _ rfl⟩

theorem classifyVP_vp (action : PyStr) (s : FactionStats) (q : Nat) :
    (classifyVP action s q).vp = s.vp := by
  rw [classifyVP]
  by_cases h1 : pyContains roundStr action = true
  · rw [if_pos h1]
  · rw [if_neg h1]
    by_cases h2 : pyContains boosterStr action = true
    · rw [if_pos h2]
    · rw [if_neg h2]
      by_cases h3 : pyContains finalStr action = true
      · rw [if_pos h3]
      · rw [if_neg h3]
        by_cases h4 : pyContains techStr action = true
        · rw [if_pos h4]
        · rw [if_neg h4]
          by_cases h5 : pyContains advStr action = true
          · rw [if_pos h5]
          · rw [if_neg h5]
            by_cases h6 : action = federationStr
            · rw [if_pos h6]
            · rw [if_neg h6]
              by_cases h7 : pyContains qicStr action = true
              · rw [if_pos h7]
              · rw [if_neg h7]
                by_cases h8 : action ∈ TECH_TRACKS
                · rw [if_pos h8]
                · rw [if_neg h8]
                  by_cases h9 : action = spendStr
                  · rw [if_pos h9]
                  · rw [if_neg h9]
                    by_cases h10 : action = chargeStr
                    · rw [if_pos h10]
                    · rw [if_neg h10]

theorem update_resources_vp (action : PyStr) (s s2 : FactionStats)
    (ch : StateChange) (h : update_resources action s ch = .ok s2) :
    s2.vp = s.vp := by
  rw [update_resources] at h
  by_cases ht : ch.type = ChangeType.LOSS
  · rw [if_pos ht] at h
    rw [← Except.ok.inj h]
  · rw [if_neg ht] at h
    dsimp only at h
    by_cases hc : action = chargeStr <;>
      [rw [if_pos hc] at h; rw [if_neg hc] at h] <;>
      (cases hr : ch.resource with
        | none => rw [hr] at h; cases h
        | some r =>
          rw [hr] at h
          cases r <;> cases h <;> rfl)

theorem update_vp_vp (action : PyStr) (s s2 : FactionStats) (ch : StateChange)
    (hr : ch.resource = some Res.VP) (h : update_vp action s ch = .ok s2) :
    s2.vp = s.vp + (gainVP (some ch) : Int) - (lossVP (some ch) : Int) := by
  rw [update_vp, hr] at h
  dsimp only at h
  rw [if_neg fun hne : Res.VP ≠ Res.VP => hne rfl] at h
  cases ht : ch.type with
  | GAIN =>
    rw [ht] at h
    rw [← Except.ok.inj h]
    show (classifyVP action s ch.quantity).vp + (ch.quantity : Int) = _
    rw [classifyVP_vp, gainVP, lossVP, hr, ht]
    simp
  | LOSS =>
    rw [ht] at h
    rw [← Except.ok.inj h]
    show (classifyVP action s ch.quantity).vp - (ch.quantity : Int) = _
    rw [classifyVP_vp, gainVP, lossVP, hr, ht]
    simp

theorem augmentChange_vp (action : PyStr) (s s2 : FactionStats)
    (ch? : Option StateChange) (h : augmentChange action s ch? = .ok s2) :
    s2.vp = s.vp + (gainVP ch? : Int) - (lossVP ch? : Int) := by
  cases ch? with
  | none => cases h
  | some ch =>
    rw [augmentChange] at h
    cases hr : ch.resource with
    | none => rw [hr] at h; cases h
    | some r =>
      rw [hr] at h
      dsimp only at h
      by_cases hvp : r = Res.VP
      · subst hvp
        rw [if_pos rfl] at h
        exact update_vp_vp action s s2 ch hr h
      · rw [if_neg hvp] at h
        rw [update_resources_vp action s s2 ch h]
        rw [gainVP, lossVP, hr]
        simp [fun hx : r = Res.VP => hvp hx]

theorem listFoldE_augmentChange_vp (action : PyStr)
    (deltas : List (Option StateChange)) :
    ∀ (s s2 : FactionStats), listFoldE (augmentChange action) s deltas = .ok s2 →
      s2.vp = s.vp + ((deltas.map gainVP).sum : Int)
        - ((deltas.map lossVP).sum : Int) := by
  induction deltas with
  | nil =>
    intro s s2 h
    rw [listFoldE] at h
    rw [← Except.ok.inj h]
    simp
  | cons d ds ih =>
    intro s s2 h
    rw [listFoldE] at h
    cases hf : augmentChange action s d with
    | error e => rw [hf] at h; cases h
    | ok s1 =>
      rw [hf] at h
      have h1 := augmentChange_vp action s s1 d hf
      have h2 := ih s1 s2 h
      rw [h2, h1]
      simp only [List.map_cons, List.sum_cons]
      push_cast
      ring

theorem augment_vp (e : Event) (s s2 : FactionStats) (h : augment s e = .ok s2) :
    s2.vp = s.vp + (eventGainVP e : Int) - (eventLossVP e : Int) :=
  listFoldE_augmentChange_vp e.1 e.2 s s2 h

theorem listFoldE_augment_vp (es : List Event) :
    ∀ (s s2 : FactionStats), listFoldE augment s es = .ok s2 →
      s2.vp = s.vp + (eventsGainVP es : Int) - (eventsLossVP es : Int) := by
  induction es with
  | nil =>
    intro s s2 h
    rw [listFoldE] at h
    rw [← Except.ok.inj h]
    simp [eventsGainVP, eventsLossVP]
  | cons e es ih =>
    intro s s2 h
    rw [listFoldE] at h
    cases hf : augment s e with
    | error e2 => rw [hf] at h; cases h
    | ok s1 =>
      rw [hf] at h
      have h1 := augment_vp e s s1 hf
      have h2 := ih s1 s2 h
      rw [h2, h1]
      simp only [eventsGainVP, eventsLossVP, List.map_cons, List.sum_cons]
      push_cast
      ring

theorem statsStep_vp (factions : List PyStr) (m m2 : PyStr → FactionStats)
    (item : LogItem) (h : statsStep factions m item = .ok m2) (f : PyStr) :
    (m2 f).vp = (m f).vp + (eventsGainVP (itemEvents f item) : Int)
      - (eventsLossVP (itemEvents f item) : Int) := by
  obtain ⟨text, fac, ev⟩ := item
  cases fac with
  | none =>
    rw [statsStep] at h
    rw [← Except.ok.inj h, itemEvents]
    simp [eventsGainVP, eventsLossVP]
  | some g =>
    cases ev with
    | none =>
      rw [statsStep] at h
      rw [← Except.ok.inj h, itemEvents]
      simp [eventsGainVP, eventsLossVP]
    | some es =>
      rw [statsStep] at h
      rw [itemEvents]
      by_cases hskip : g = [] ∨ es = []
      · rw [if_pos hskip] at h
        rw [← Except.ok.inj h]
        rw [if_neg fun hcond => by
          rcases hskip with hg | he
          · exact hcond.2.1 hg
          · exact hcond.2.2 he]
        simp [eventsGainVP, eventsLossVP]
      · rw [if_neg hskip] at h
        push_neg at hskip
        by_cases hmem : g ∈ factions
        · rw [if_pos hmem] at h
          cases hfold : listFoldE augment (m g) es with
          | error e => rw [hfold] at h; cases h
          | ok fs =>
            rw [hfold] at h
            rw [← Except.ok.inj h]
            by_cases hf : f = g
            · subst hf
              rw [if_pos ⟨rfl, hskip.1, hskip.2⟩]
              simpa using listFoldE_augment_vp es (m f) fs hfold
            · rw [if_neg fun hcond => hf hcond.1.symm]
              simp [eventsGainVP, eventsLossVP, fun hx : f = g => hf hx]
        · rw [if_neg hmem] at h
          cases h

theorem listFoldE_statsStep_vp (factions : List PyStr) (items : List LogItem) :
    ∀ (m m2 : PyStr → FactionStats),
      listFoldE (statsStep factions) m items = .ok m2 →
      ∀ f, (m2 f).vp = (m f).vp
        + (eventsGainVP (factionEvents f items) : Int)
        - (eventsLossVP (factionEvents f items) : Int) := by
  induction items with
  | nil =>
    intro m m2 h f
    rw [listFoldE] at h
    rw [← Except.ok.inj h, factionEvents]
    simp [eventsGainVP, eventsLossVP]
  | cons item items ih =>
    intro m m2 h f
    rw [listFoldE] at h
    cases hs : statsStep factions m item with
    | error e => rw [hs] at h; cases h
    | ok m1 =>
      rw [hs] at h
      have h1 := statsStep_vp factions m m1 item hs f
      have h2 := ih m1 m2 h f
      rw [h2, h1, factionEvents]
      simp only [eventsGainVP, eventsLossVP, List.map_append, List.sum_append]
      push_cast
      ring

/-- C1: after a successful aggregation pass, every participant's total
victory points equal 10 plus the sum of Gain-direction VP quantities minus
the sum of Loss-direction VP quantities over all of that participant's
events, independent of bucket classification. -/
theorem vp_total_invariant (log : GameLog) (m : PyStr → FactionStats)
    (h : statsOfLog log = .ok m) (f : PyStr) (hf : f ∈ log.factions) :
    (m f).vp = 10 + (eventsGainVP (factionEvents f log.items) : Int)
      - (eventsLossVP (factionEvents f log.items) : Int) := by
  have hfold := listFoldE_statsStep_vp log.factions log.items _ m h f
  rw [hfold]
  rfl

/-- C1 witness: one federation event gaining 4 VP and losing 1 VP ends at
10 + 4 - 1 = 13 total victory points. -/
theorem vp_total_invariant_witness :
    ∃ m, statsOfLog witLog = .ok m ∧
      (m "terrans".toList).vp =
        10 + (eventsGainVP (factionEvents "terrans".toList witLog.items) : Int)
          - (eventsLossVP (factionEvents "terrans".toList witLog.items) : Int) :=
  ⟨_, rfl, vp_total_invariant witLog _ rfl "terrans".toList (by decide)⟩
